import Mathlib

/-!
Shallow embedding of `src/main.py` (video-splitter-for-shorts-reel).

The program splits a source video into vertical "reel" segments with
branding overlays, via moviepy.  Times and clip dimensions are Python
floats on exact values (integers from argparse, plus a float media
duration); we model them as `ℚ`.  External moviepy calls are modelled at
their call sites: `resize` with a single `width=`/`height=` keyword scales
preserving aspect ratio (moviepy's documented behaviour); `resize` with
both keywords is modelled as producing exactly the requested size;
`resize(f)` scales both axes by `f`.  Filesystem effects of
`generate_reels_parts` are recorded as an event trace, and failures that
an exception may raise while processing a segment (encode failure,
interrupt) are injected through a `fault` oracle, so that the
`try/finally` cleanup discipline can be stated.
-/

/-- Python `int(q)` on a rational: truncation toward zero. -/
def pyInt (q : ℚ) : ℤ := if 0 ≤ q then ⌊q⌋ else ⌈q⌉

/-- Python `range(a, b, step)` for a positive `step`: the integers
`a + step*j`, `j = 0, 1, ...`, while `a + step*j < b`; its length is
`⌈(b - a) / step⌉` clamped to `0` (the CPython length formula). -/
def pyRange (a b step : ℤ) : List ℤ :=
  (List.range (⌈((b : ℚ) - (a : ℚ)) / (step : ℚ)⌉.toNat)).map
    (fun (j : ℕ) => a + step * (j : ℤ))

/-- `end = min(duration, end) if end else duration` (src/main.py line 115):
a supplied `end` is used only when truthy (non-`None` and nonzero). -/
def endValue (duration : ℚ) (endOpt : Option ℤ) : ℚ :=
  match endOpt with
  | some e => if e ≠ 0 then min duration (e : ℚ) else duration
  | none => duration

/-- The segment boundaries of the loop
`for i, t in enumerate(range(start, int(end), part_duration), 1)` with
`subclip_end = min(t + part_duration, end)` (src/main.py lines 127-129),
as (start, end) pairs in seconds. -/
def segments (start' : ℤ) (endv : ℚ) (pd : ℤ) : List (ℚ × ℚ) :=
  (pyRange start' (pyInt endv) pd).map
    (fun (t : ℤ) => ((t : ℚ), min ((t : ℚ) + (pd : ℚ)) endv))

/-- Python `enumerate(xs, n)`. -/
def enumFrom : ℕ → List α → List (ℕ × α)
  | _, [] => []
  | n, x :: xs => (n, x) :: enumFrom (n + 1) xs

/-- The keyword arguments of the `final.write_videofile(...)` call
(src/main.py lines 208-218). -/
structure ExportCall where
  output_path : String
  codec : String
  audio_codec : String
  fps : ℕ
  threads : ℕ
  preset : String
  temp_audiofile : String
  remove_temp : Bool
deriving DecidableEq

/-- Filesystem-visible events of one run of `generate_reels_parts`. -/
inductive Event where
  | mkOutputDir (path : String)
  | mkTempDir (path : String)
  | exportPart (call : ExportCall)
  | rmTemp (path : String)
deriving DecidableEq

/-- Result of a run: the event trace plus the error it raised, if any. -/
structure RunResult where
  events : List Event
  error : Option String
deriving DecidableEq

/-- The `final.write_videofile(...)` keyword arguments for segment `i`
(src/main.py lines 206-218): the fixed encoding policy, and the scratch
intermediate audio file inside the temp directory with `remove_temp=True`. -/
def writeVideofileCall (output_folder temp_dir : String) (i : ℕ) : ExportCall :=
  { output_path := output_folder ++ "/part_" ++ toString i ++ ".mp4",
    codec := "libx264",
    audio_codec := "aac",
    fps := 30,
    threads := 4,
    preset := "ultrafast",
    temp_audiofile := temp_dir ++ "/temp_audio_part" ++ toString i ++ ".m4a",
    remove_temp := true }

/-- The per-segment loop body (src/main.py lines 127-220).  `fault i`
injects an exception raised while building/composing/exporting segment
`i` (encode failure or external interrupt); processing stops there and
the exception propagates. -/
def exportSegments (output_folder temp_dir : String) (fault : ℕ → Bool) :
    List (ℕ × (ℚ × ℚ)) → List Event × Option String
  | [] => ([], none)
  | (i, _) :: rest =>
    if fault i then ([], some "error while processing segment")
    else
      let r := exportSegments output_folder temp_dir fault rest
      (Event.exportPart (writeVideofileCall output_folder temp_dir i) :: r.1, r.2)

/-- `generate_reels_parts` (src/main.py lines 93-227), at trace level:
clamp `start`, resolve `end` against the media duration, raise
`ValueError` when `start >= end` before creating any directory; otherwise
create the output and temp directories, run the segment loop inside
`try`, and in `finally` remove the temp directory (the `os.path.exists`
guard holds because the directory was created on entry and nothing else
removes it). -/
def generate_reels_parts (duration : ℚ) (start : ℤ) (endOpt : Option ℤ)
    (pd : ℤ) (video_title output_base project_id : String)
    (fault : ℕ → Bool) : RunResult :=
  let start' := max 0 start
  let endv := endValue duration endOpt
  if (start' : ℚ) ≥ endv then
    { events := [], error := some "Start time must be less than end time." }
  else
    let output_folder := output_base ++ "/" ++ video_title ++ "_" ++ project_id
    let temp_dir := "temp/video_split_" ++ project_id
    let r := exportSegments output_folder temp_dir fault
      (enumFrom 1 (segments start' endv pd))
    { events := Event.mkOutputDir output_folder :: Event.mkTempDir temp_dir ::
        (r.1 ++ [Event.rmTemp temp_dir]),
      error := r.2 }

/-- Whether the scratch directory exists after replaying one event. -/
def stepTemp (tempPath : String) (b : Bool) : Event → Bool
  | Event.mkTempDir p => if p = tempPath then true else b
  | Event.rmTemp p => if p = tempPath then false else b
  | _ => b

/-- Whether the scratch directory exists after a trace, starting from a
state in which it does not exist. -/
def tempExistsAfter (tempPath : String) (evs : List Event) : Bool :=
  evs.foldl (stepTemp tempPath) false

/-- How many times the trace removed a scratch directory. -/
def cleanupCount (evs : List Event) : ℕ :=
  evs.countP (fun e => match e with | Event.rmTemp _ => true | _ => false)

/-- The export calls of a trace, in order. -/
def exportCalls (evs : List Event) : List ExportCall :=
  evs.filterMap (fun e => match e with | Event.exportPart c => some c | _ => none)

/-- Canvas width, `VIDEO_WIDTH` (src/main.py line 22). -/
def VIDEO_WIDTH : ℚ := 1080

/-- Canvas height, `VIDEO_HEIGHT` (src/main.py line 23). -/
def VIDEO_HEIGHT : ℚ := 1920

/-- moviepy `resize` with both `width=` and `height=` keywords, modelled
as producing exactly the requested size (the call-site reading of
src/main.py lines 134 and 137). -/
def resizeWH (w h : ℚ) : ℚ × ℚ := (w, h)

/-- moviepy `clip.resize(f)`: scale both axes by the factor `f`. -/
def resizeBy (size : ℚ × ℚ) (f : ℚ) : ℚ × ℚ := (size.1 * f, size.2 * f)

/-- moviepy `clip.resize(width=w)` on a clip of size `(w0, h0)`: the
height follows, preserving the aspect ratio. -/
def resizeToWidth (w0 h0 w : ℚ) : ℚ × ℚ := (w, h0 * (w / w0))

/-- moviepy `clip.resize(height=h)` on a clip of size `(w0, h0)`: the
width follows, preserving the aspect ratio. -/
def resizeToHeight (w0 h0 h : ℚ) : ℚ × ℚ := (w0 * (h / h0), h)

/-- Python truthiness of an optional string (`None` and `""` are falsy). -/
def strTruthy : Option String → Bool
  | none => false
  | some s => !s.isEmpty

/-- The background layer of a segment (src/main.py lines 131-140):
either the configured image resized to the canvas, or a backdrop
synthesized from the segment's own video (`synth`, carrying the size
after the resize chain of lines 136-140). -/
inductive BgLayer where
  | image (path : String) (size : ℚ × ℚ)
  | synth (size : ℚ × ℚ)
deriving DecidableEq

/-- `if background_image and os.path.exists(background_image): ... else:
...` (src/main.py lines 132-140).  The fallback scales the subclip to the
canvas, then by `0.3`, then by `1 / 0.3`. -/
def backgroundLayer (background_image : Option String)
    (fsExists : String → Bool) : BgLayer :=
  if strTruthy background_image ∧ fsExists (background_image.getD "") then
    BgLayer.image (background_image.getD "") (resizeWH VIDEO_WIDTH VIDEO_HEIGHT)
  else
    BgLayer.synth (resizeBy (resizeBy (resizeWH VIDEO_WIDTH VIDEO_HEIGHT)
      (3 / 10)) (10 / 3))

/-- The scaled main-video layer (src/main.py lines 143-148): branch on
`aspect_ratio > 9 / 16`, then always `set_position(("center", "center"))`. -/
def scaledVideo (w h : ℚ) : (ℚ × ℚ) × (String × String) :=
  (if w / h > 9 / 16 then resizeToWidth w h VIDEO_WIDTH
   else resizeToHeight w h VIDEO_HEIGHT,
   ("center", "center"))

/-- The logo layer, when built (src/main.py lines 150-156): resized to
height 50 and placed at `(logo_x, logo_y) = (50, VIDEO_HEIGHT - 80)`. -/
structure LogoClip where
  w : ℚ
  h : ℚ
  x : ℚ
  y : ℚ
deriving DecidableEq

/-- `if logo_image and os.path.exists(logo_image): ...` (src/main.py
lines 150-156); `(w0, h0)` is the natural size of the logo image. -/
def logoLayer (logo_image : Option String) (fsExists : String → Bool)
    (w0 h0 : ℚ) : Option LogoClip :=
  if strTruthy logo_image ∧ fsExists (logo_image.getD "") then
    some { w := (resizeToHeight w0 h0 50).1, h := (resizeToHeight w0 h0 50).2,
           x := 50, y := VIDEO_HEIGHT - 80 }
  else none

/-- A rendered text layer: its text and position. -/
structure TextLayer where
  text : String
  x : ℚ
  y : ℚ
deriving DecidableEq

/-- The username overlay (src/main.py lines 158-181).  With a logo the
text is `f"/{username[1:]}"`, placed at
`(logo_x + logo_clip.w + 10, logo_y + (logo_clip.h - username_text.h)/2)`;
without a logo the text is the username verbatim, anchored bottom-right
with 50px margins.  `(textW, textH)` is the measured size of the rendered
`TextClip`. -/
def usernameLayer (logoClip : Option LogoClip) (username : String)
    (textW textH : ℚ) : TextLayer :=
  match logoClip with
  | some lc =>
    { text := "/" ++ username.drop 1,
      x := 50 + lc.w + 10,
      y := (VIDEO_HEIGHT - 80) + (lc.h - textH) / 2 }
  | none =>
    { text := username,
      x := VIDEO_WIDTH - textW - 50,
      y := VIDEO_HEIGHT - textH - 50 }

lemma pyRange_length (a b step : ℤ) :
    (pyRange a b step).length = (⌈((b : ℚ) - (a : ℚ)) / (step : ℚ)⌉).toNat := by
  simp only [pyRange, List.length_map, List.length_range]

lemma pyRange_lt_length {a b step : ℤ} (hstep : 0 < step) {j : ℕ} :
    j < (pyRange a b step).length ↔ a + step * (j : ℤ) < b := by
  rw [pyRange_length, Int.lt_toNat, Int.lt_ceil,
    lt_div_iff₀ (by exact_mod_cast hstep : (0 : ℚ) < (step : ℚ))]
  constructor <;> intro h
  · have h' : (j : ℤ) * step < b - a := by exact_mod_cast h
    linarith [mul_comm (j : ℤ) step]
  · exact_mod_cast (by linarith [mul_comm (j : ℤ) step] : (j : ℤ) * step < b - a)

lemma pyRange_get (a b step : ℤ) (j : ℕ) (h : j < (pyRange a b step).length) :
    (pyRange a b step).get ⟨j, h⟩ = a + step * (j : ℤ) := by
  simp only [pyRange, List.get_eq_getElem, List.getElem_map, List.getElem_range]

lemma segments_length (s : ℤ) (e : ℚ) (pd : ℤ) :
    (segments s e pd).length = (pyRange s (pyInt e) pd).length := by
  simp only [segments, List.length_map]

lemma segments_get (s : ℤ) (e : ℚ) (pd : ℤ) (j : ℕ)
    (h : j < (segments s e pd).length) :
    (segments s e pd).get ⟨j, h⟩ =
      (((s + pd * (j : ℤ) : ℤ) : ℚ),
        min (((s + pd * (j : ℤ) : ℤ) : ℚ) + (pd : ℚ)) e) := by
  simp only [segments, pyRange, List.get_eq_getElem, List.getElem_map,
    List.getElem_range]

lemma ceil_int_div (D pd : ℤ) (h : 0 < pd) :
    ⌈(D : ℚ) / (pd : ℚ)⌉ = if pd ∣ D then D / pd else D / pd + 1 := by
  have hpd : (0 : ℚ) < (pd : ℚ) := by exact_mod_cast h
  have hqr := Int.ediv_add_emod D pd
  have hqrQ : (pd : ℚ) * ((D / pd : ℤ) : ℚ) + ((D % pd : ℤ) : ℚ) = (D : ℚ) := by
    exact_mod_cast congrArg (fun z : ℤ => (z : ℚ)) hqr
  by_cases hdvd : pd ∣ D
  · rw [if_pos hdvd]
    have hq : (D : ℚ) / (pd : ℚ) = ((D / pd : ℤ) : ℚ) := by
      rw [div_eq_iff (ne_of_gt hpd)]
      exact_mod_cast (by rw [mul_comm]; exact (Int.mul_ediv_cancel' hdvd).symm :
        (D : ℤ) = (D / pd) * pd)
    rw [hq]
    exact Int.ceil_intCast _
  · rw [if_neg hdvd]
    have hr0 : 0 < D % pd := by
      rcases (Int.emod_nonneg D (by omega : pd ≠ 0)).lt_or_eq with h' | h'
      · exact h'
      · exact absurd (Int.dvd_of_emod_eq_zero h'.symm) hdvd
    have hrlt : D % pd < pd := Int.emod_lt_of_pos D h
    have hr0Q : (0 : ℚ) < ((D % pd : ℤ) : ℚ) := by exact_mod_cast hr0
    have hrltQ : ((D % pd : ℤ) : ℚ) < (pd : ℚ) := by exact_mod_cast hrlt
    rw [Int.ceil_eq_iff]
    constructor
    · rw [lt_div_iff₀ hpd]
      push_cast
      push_cast at hqrQ
      linarith
    · rw [div_le_iff₀ hpd]
      push_cast
      push_cast at hqrQ
      linarith

lemma exportSegments_no_fault (of td : String) (l : List (ℕ × (ℚ × ℚ))) :
    exportSegments of td (fun _ => false) l =
      (l.map (fun p => Event.exportPart (writeVideofileCall of td p.1)), none) := by
  induction l with
  | nil => rfl
  | cons hd tl ih =>
    obtain ⟨i, seg⟩ := hd
    simp [exportSegments, ih]

lemma exportSegments_fst_exports (of td : String) (fault : ℕ → Bool)
    (l : List (ℕ × (ℚ × ℚ))) :
    ∀ e ∈ (exportSegments of td fault l).1, ∃ c, e = Event.exportPart c := by
  induction l with
  | nil => intro e he; simp [exportSegments] at he
  | cons hd tl ih =>
    obtain ⟨i, seg⟩ := hd
    intro e he
    by_cases hf : fault i
    · simp [exportSegments, hf] at he
    · simp only [exportSegments, hf, if_neg, Bool.false_eq_true,
        not_false_iff, List.mem_cons] at he
      rcases he with he | he
      · exact ⟨_, he⟩
      · exact ih e he

lemma foldl_stepTemp_exports (tp : String) (b : Bool) (evs : List Event)
    (h : ∀ e ∈ evs, ∃ c, e = Event.exportPart c) :
    evs.foldl (stepTemp tp) b = b := by
  induction evs generalizing b with
  | nil => rfl
  | cons hd tl ih =>
    obtain ⟨c, hc⟩ := h hd (List.mem_cons_self hd tl)
    subst hc
    simpa [stepTemp] using ih b (fun e he => h e (List.mem_cons_of_mem _ he))

lemma countP_rmTemp_exports (evs : List Event)
    (h : ∀ e ∈ evs, ∃ c, e = Event.exportPart c) :
    evs.countP (fun e => match e with | Event.rmTemp _ => true | _ => false) = 0 := by
  induction evs with
  | nil => rfl
  | cons hd tl ih =>
    obtain ⟨c, hc⟩ := h hd (List.mem_cons_self hd tl)
    subst hc
    simpa [List.countP_cons] using ih (fun e he => h e (List.mem_cons_of_mem _ he))

lemma enumFrom_length (n : ℕ) (l : List α) : (enumFrom n l).length = l.length := by
  induction l generalizing n with
  | nil => rfl
  | cons hd tl ih => simp [enumFrom, ih]

lemma enumFrom_get (n : ℕ) (l : List α) (j : ℕ)
    (h : j < (enumFrom n l).length) (h' : j < l.length) :
    (enumFrom n l).get ⟨j, h⟩ = (n + j, l.get ⟨j, h'⟩) := by
  induction l generalizing n j with
  | nil => simp at h'
  | cons hd tl ih =>
    cases j with
    | zero => simp [enumFrom]
    | succ k =>
      have hk : k < (enumFrom (n + 1) tl).length := by
        simpa [enumFrom] using h
      have hk' : k < tl.length := by simpa using h'
      have := ih (n + 1) k hk hk'
      simp only [enumFrom, List.get_eq_getElem, List.getElem_cons_succ]
      rw [show (enumFrom (n + 1) tl)[k] = (enumFrom (n + 1) tl).get ⟨k, hk⟩ from rfl,
        this]
      congr 1
      omega

lemma exportSegments_fst_calls (of td : String) (fault : ℕ → Bool)
    (l : List (ℕ × (ℚ × ℚ))) :
    ∀ e ∈ (exportSegments of td fault l).1,
      ∃ i, e = Event.exportPart (writeVideofileCall of td i) := by
  induction l with
  | nil => intro e he; simp [exportSegments] at he
  | cons hd tl ih =>
    obtain ⟨i, seg⟩ := hd
    intro e he
    by_cases hf : fault i
    · simp [exportSegments, hf] at he
    · simp only [exportSegments, hf, Bool.false_eq_true, if_neg,
        not_false_iff, List.mem_cons] at he
      rcases he with he | he
      · exact ⟨i, he⟩
      · exact ih e he

lemma generate_reels_parts_valid (duration : ℚ) (start : ℤ) (endOpt : Option ℤ)
    (pd : ℤ) (vt ob pid : String) (fault : ℕ → Bool)
    (h : ((max 0 start : ℤ) : ℚ) < endValue duration endOpt) :
    generate_reels_parts duration start endOpt pd vt ob pid fault =
      { events := Event.mkOutputDir (ob ++ "/" ++ vt ++ "_" ++ pid) ::
          Event.mkTempDir ("temp/video_split_" ++ pid) ::
          ((exportSegments (ob ++ "/" ++ vt ++ "_" ++ pid)
              ("temp/video_split_" ++ pid) fault
              (enumFrom 1 (segments (max 0 start) (endValue duration endOpt) pd))).1
            ++ [Event.rmTemp ("temp/video_split_" ++ pid)]),
        error := (exportSegments (ob ++ "/" ++ vt ++ "_" ++ pid)
          ("temp/video_split_" ++ pid) fault
          (enumFrom 1 (segments (max 0 start) (endValue duration endOpt) pd))).2 } := by
  simp only [generate_reels_parts]
  rw [if_neg (not_le.mpr h)]

/-- C2: after any run in which the input range is valid (so the scratch
directory gets created), the scratch directory no longer exists when
`generate_reels_parts` returns — on normal completion and on an exception
raised while building/composing/exporting any segment (including an
external interrupt) — and the cleanup (`shutil.rmtree` of the temp
directory) happens exactly once. -/
theorem c2_scratch_cleanup (duration : ℚ) (start : ℤ) (endOpt : Option ℤ)
    (pd : ℤ) (vt ob pid : String) (fault : ℕ → Bool)
    (h : ((max 0 start : ℤ) : ℚ) < endValue duration endOpt) :
    tempExistsAfter ("temp/video_split_" ++ pid)
      (generate_reels_parts duration start endOpt pd vt ob pid fault).events
        = false ∧
    cleanupCount
      (generate_reels_parts duration start endOpt pd vt ob pid fault).events
        = 1 := by
  rw [generate_reels_parts_valid duration start endOpt pd vt ob pid fault h]
  set of := ob ++ "/" ++ vt ++ "_" ++ pid
  set td := "temp/video_split_" ++ pid
  set evs := (exportSegments of td fault
    (enumFrom 1 (segments (max 0 start) (endValue duration endOpt) pd))).1
  have hexp : ∀ e ∈ evs, ∃ c, e = Event.exportPart c := by
    intro e he
    obtain ⟨i, hi⟩ := exportSegments_fst_calls of td fault _ e he
    exact ⟨_, hi⟩
  constructor
  · show (Event.mkOutputDir of :: Event.mkTempDir td ::
      (evs ++ [Event.rmTemp td])).foldl (stepTemp td) false = false
    rw [List.foldl_cons, List.foldl_cons, List.foldl_append]
    have h1 : stepTemp td false (Event.mkOutputDir of) = false := rfl
    have h2 : stepTemp td (stepTemp td false (Event.mkOutputDir of))
        (Event.mkTempDir td) = true := by simp [stepTemp]
    rw [h2, foldl_stepTemp_exports td true evs hexp]
    simp [stepTemp]
  · show (Event.mkOutputDir of :: Event.mkTempDir td ::
      (evs ++ [Event.rmTemp td])).countP
        (fun e => match e with | Event.rmTemp _ => true | _ => false) = 1
    rw [List.countP_cons, List.countP_cons, List.countP_append,
      countP_rmTemp_exports evs hexp]
    rfl

/-- C2 witness: a concrete valid run (95-second media, whole range,
30-second parts, no fault) ends with no scratch directory and exactly one
cleanup. -/
theorem c2_scratch_cleanup_witness :
    tempExistsAfter ("temp/video_split_" ++ "abcd1234")
      (generate_reels_parts 95 0 none 30 "Video Title" "output" "abcd1234"
        (fun _ => false)).events = false ∧
    cleanupCount
      (generate_reels_parts 95 0 none 30 "Video Title" "output" "abcd1234"
        (fun _ => false)).events = 1 :=
  c2_scratch_cleanup 95 0 none 30 "Video Title" "output" "abcd1234"
    (fun _ => false) (by norm_num [endValue])

/-- C5: when `start >= end` after clamping (`start` clamped to `≥ 0`,
`end` resolved against the media duration), `generate_reels_parts` raises
`ValueError("Start time must be less than end time.")` before creating
the output directory, the scratch directory, or any segment: its event
trace is empty. -/
theorem c5_fail_fast (duration : ℚ) (start : ℤ) (endOpt : Option ℤ)
    (pd : ℤ) (vt ob pid : String) (fault : ℕ → Bool)
    (h : endValue duration endOpt ≤ ((max 0 start : ℤ) : ℚ)) :
    (generate_reels_parts duration start endOpt pd vt ob pid fault).events = []
      ∧ (generate_reels_parts duration start endOpt pd vt ob pid fault).error
        = some "Start time must be less than end time." := by
  simp only [generate_reels_parts]
  rw [if_pos h]
  exact ⟨rfl, rfl⟩

/-- C5 witness: `start=50`, `end=40` on a 100-second media fails fast
with the `ValueError` and an empty trace. -/
theorem c5_fail_fast_witness :
    (generate_reels_parts 100 50 (some 40) 30 "Video Title" "output"
      "abcd1234" (fun _ => false)).events = [] ∧
    (generate_reels_parts 100 50 (some 40) 30 "Video Title" "output"
      "abcd1234" (fun _ => false)).error
        = some "Start time must be less than end time." :=
  c5_fail_fast 100 50 (some 40) 30 "Video Title" "output" "abcd1234"
    (fun _ => false) (by norm_num [endValue])

/-- C9: every `write_videofile` call of a run uses the fixed encoding
policy — `codec="libx264"`, `audio_codec="aac"`, `fps=30`, `threads=4`,
`preset="ultrafast"` — and writes its intermediate audio file
`temp_audio_part{i}.m4a` inside the run's scratch directory with
`remove_temp=True` (automatic removal as part of the export call). -/
theorem c9_export_policy (duration : ℚ) (start : ℤ) (endOpt : Option ℤ)
    (pd : ℤ) (vt ob pid : String) (fault : ℕ → Bool) (c : ExportCall)
    (hc : Event.exportPart c ∈
      (generate_reels_parts duration start endOpt pd vt ob pid fault).events) :
    c.codec = "libx264" ∧ c.audio_codec = "aac" ∧ c.fps = 30 ∧
    c.threads = 4 ∧ c.preset = "ultrafast" ∧ c.remove_temp = true ∧
    ∃ i : ℕ, c.temp_audiofile =
      ("temp/video_split_" ++ pid) ++ "/temp_audio_part" ++ toString i
        ++ ".m4a" := by
  by_cases hv : ((max 0 start : ℤ) : ℚ) < endValue duration endOpt
  · rw [generate_reels_parts_valid duration start endOpt pd vt ob pid fault hv]
      at hc
    simp only [List.mem_cons, List.mem_append, List.mem_singleton] at hc
    rcases hc with h1 | h1 | h1 | h1
    · simp at h1
    · simp at h1
    · obtain ⟨i, hi⟩ := exportSegments_fst_calls _ _ _ _ _ h1
      have hci : c = writeVideofileCall (ob ++ "/" ++ vt ++ "_" ++ pid)
          ("temp/video_split_" ++ pid) i := by
        injection hi
      subst hci
      exact ⟨rfl, rfl, rfl, rfl, rfl, rfl, i, rfl⟩
    · simp at h1
  · simp only [generate_reels_parts] at hc
    rw [if_pos (not_lt.mp hv)] at hc
    simp at hc

/-- C10: passing `end = 0` is treated identically to passing no `end` at
all — the truthiness test `if end else duration` sends both to the full
media duration — so the whole run coincides. -/
theorem c10_end_zero (duration : ℚ) (start : ℤ) (pd : ℤ)
    (vt ob pid : String) (fault : ℕ → Bool) :
    generate_reels_parts duration start (some 0) pd vt ob pid fault =
      generate_reels_parts duration start none pd vt ob pid fault := by
  simp [generate_reels_parts, endValue]

lemma segments_concrete_10_30 :
    segments (max 0 0) (endValue 10 none) 30 = [((0 : ℚ), 10)] := by
  have h1 : pyInt (endValue 10 none) = 10 := by
    norm_num [pyInt, endValue]
  simp only [segments, pyRange, h1]
  have h2 : (⌈(1 : ℚ) / 3⌉ : ℤ) = 1 := by
    rw [Int.ceil_eq_iff]
    norm_num
  norm_num [h2, endValue, List.range_succ]

/-- C9 witness: the single export call of a 10-second, one-part run uses
the fixed policy and the scratch audio path. -/
theorem c9_export_policy_witness :
    (writeVideofileCall ("output" ++ "/" ++ "Video Title" ++ "_" ++ "abcd1234")
      ("temp/video_split_" ++ "abcd1234") 1).codec = "libx264" ∧
    (writeVideofileCall ("output" ++ "/" ++ "Video Title" ++ "_" ++ "abcd1234")
      ("temp/video_split_" ++ "abcd1234") 1).audio_codec = "aac" ∧
    (writeVideofileCall ("output" ++ "/" ++ "Video Title" ++ "_" ++ "abcd1234")
      ("temp/video_split_" ++ "abcd1234") 1).fps = 30 ∧
    (writeVideofileCall ("output" ++ "/" ++ "Video Title" ++ "_" ++ "abcd1234")
      ("temp/video_split_" ++ "abcd1234") 1).threads = 4 ∧
    (writeVideofileCall ("output" ++ "/" ++ "Video Title" ++ "_" ++ "abcd1234")
      ("temp/video_split_" ++ "abcd1234") 1).preset = "ultrafast" ∧
    (writeVideofileCall ("output" ++ "/" ++ "Video Title" ++ "_" ++ "abcd1234")
      ("temp/video_split_" ++ "abcd1234") 1).remove_temp = true ∧
    ∃ i : ℕ,
      (writeVideofileCall ("output" ++ "/" ++ "Video Title" ++ "_" ++ "abcd1234")
        ("temp/video_split_" ++ "abcd1234") 1).temp_audiofile =
      ("temp/video_split_" ++ "abcd1234") ++ "/temp_audio_part" ++ toString i
        ++ ".m4a" :=
  c9_export_policy 10 0 none 30 "Video Title" "output" "abcd1234"
    (fun _ => false) _ (by
      rw [generate_reels_parts_valid 10 0 none 30 "Video Title" "output"
        "abcd1234" (fun _ => false) (by norm_num [endValue])]
      rw [segments_concrete_10_30]
      rw [show enumFrom 1 [((0 : ℚ), (10 : ℚ))] = [(1, ((0 : ℚ), (10 : ℚ)))]
        from rfl]
      rw [exportSegments_no_fault]
      simp)

/-- C3 counterexample: with a logo present and `username = "alice"` (no
leading "@"), the rendered username text is `"/lice"` — the code's
`f"/{username[1:]}"` drops the first character unconditionally — not the
`"/alice"` the claim requires for a username with no leading "@". -/
theorem c3_counterexample :
    (usernameLayer (logoLayer (some "logo.png") (fun _ => true) 100 50)
      "alice" 80 30).text = "/lice" ∧ "/lice" ≠ "/alice" := by
  constructor
  · rfl
  · decide

/-- C3 (amended): when a logo layer exists, the rendered username text is
`"/"` followed by the username with its **first character** removed
(which strips a leading "@" exactly when the username starts with one);
the text sits at `x = logo_x + logo_width + 10` (10px right of the logo's
right edge, `logo_x = 50`) and is vertically centered against the logo's
50px height: `y = logo_y + (50 - text_height)/2`. -/
theorem c3_username_layer (p : String) (fs : String → Bool) (w0 h0 : ℚ)
    (username : String) (textW textH : ℚ)
    (hp : p ≠ "") (hfs : fs p = true) :
    usernameLayer (logoLayer (some p) fs w0 h0) username textW textH =
      { text := "/" ++ username.drop 1,
        x := 50 + w0 * (50 / h0) + 10,
        y := (VIDEO_HEIGHT - 80) + (50 - textH) / 2 } := by
  have htr : strTruthy (some p) = true := by
    have : p.isEmpty = false := by
      rw [Bool.eq_false_iff]
      intro hpe
      exact hp ((String.isEmpty_iff p).mp hpe)
    simp [strTruthy, this]
  simp [logoLayer, usernameLayer, resizeToHeight, htr, hfs]

/-- C3 witness: `username = "@alice"` with a present 100×50 logo renders
`"/alice"` 10px right of the logo's right edge, vertically centered on
its 50px height. -/
theorem c3_username_layer_witness :
    usernameLayer (logoLayer (some "logo.png") (fun _ => true) 100 50)
      "@alice" 80 30 =
      { text := "/" ++ "@alice".drop 1,
        x := 50 + 100 * (50 / 50) + 10,
        y := (VIDEO_HEIGHT - 80) + (50 - 30) / 2 } :=
  c3_username_layer "logo.png" (fun _ => true) 100 50 "@alice" 80 30
    (by decide) rfl

/-- C4: for every segment frame of positive size, if the aspect ratio
`w/h` is strictly greater than `9/16` the main video is scaled so its
width is 1080, otherwise (the tie `w/h = 9/16` included) so its height is
1920; the aspect ratio is preserved and the clip is positioned
`("center", "center")`. -/
theorem c4_scaled_video (w h : ℚ) (hw : 0 < w) (hh : 0 < h) :
    (w / h > 9 / 16 → ((scaledVideo w h).1).1 = 1080) ∧
    (¬ w / h > 9 / 16 → ((scaledVideo w h).1).2 = 1920) ∧
    ((scaledVideo w h).1).1 * h = ((scaledVideo w h).1).2 * w ∧
    (scaledVideo w h).2 = ("center", "center") := by
  refine ⟨?_, ?_, ?_, rfl⟩
  · intro hr
    simp [scaledVideo, hr, resizeToWidth, VIDEO_WIDTH]
  · intro hr
    simp [scaledVideo, hr, resizeToHeight, VIDEO_HEIGHT]
  · by_cases hr : w / h > 9 / 16
    · simp only [scaledVideo, if_pos hr, resizeToWidth, VIDEO_WIDTH]
      field_simp
      ring
    · simp only [scaledVideo, if_neg hr, resizeToHeight, VIDEO_HEIGHT]
      field_simp
      ring

/-- C4 witness: a 1920×1080 (16:9) frame is wider than 9:16, so it is
scaled to width 1080, with the aspect ratio preserved and centered. -/
theorem c4_scaled_video_witness :
    ((1920 : ℚ) / 1080 > 9 / 16 → ((scaledVideo 1920 1080).1).1 = 1080) ∧
    (¬ (1920 : ℚ) / 1080 > 9 / 16 → ((scaledVideo 1920 1080).1).2 = 1920) ∧
    ((scaledVideo (1920 : ℚ) 1080).1).1 * 1080
      = ((scaledVideo (1920 : ℚ) 1080).1).2 * 1920 ∧
    (scaledVideo (1920 : ℚ) 1080).2 = ("center", "center") :=
  c4_scaled_video 1920 1080 (by norm_num) (by norm_num)

/-- C6: a configured background or logo path that does not exist on disk
is not an error: the background falls back to the blur-resample synthesis
from the segment's own video, no logo layer is added, and (both builders
being total functions) no exception is raised. -/
theorem c6_missing_assets (bp lp : String) (fs : String → Bool) (w0 h0 : ℚ)
    (hb : fs bp = false) (hl : fs lp = false) :
    backgroundLayer (some bp) fs =
      BgLayer.synth (resizeBy (resizeBy (resizeWH VIDEO_WIDTH VIDEO_HEIGHT)
        (3 / 10)) (10 / 3)) ∧
    logoLayer (some lp) fs w0 h0 = none := by
  constructor
  · simp [backgroundLayer, hb]
  · simp [logoLayer, hl]

/-- C6 witness: configured `background.png` and `logo.png` both absent on
disk fall back to the synthesized background and no logo layer. -/
theorem c6_missing_assets_witness :
    backgroundLayer (some "background.png") (fun _ => false) =
      BgLayer.synth (resizeBy (resizeBy (resizeWH VIDEO_WIDTH VIDEO_HEIGHT)
        (3 / 10)) (10 / 3)) ∧
    logoLayer (some "logo.png") (fun _ => false) 100 50 = none :=
  c6_missing_assets "background.png" "logo.png" (fun _ => false) 100 50
    rfl rfl

/-- C7: a configured and present background image is scaled to exactly
the 1080×1920 canvas, each axis independently (the requested output size
does not depend on the image's own size at all); otherwise — absent file
or no configured path — the background is the segment's own video scaled
to canvas size, downscaled by 0.3 and upscaled by 1/0.3, which again
yields exactly the canvas size. -/
theorem c7_background_scaling (bp : String) (fs : String → Bool) :
    (bp ≠ "" → fs bp = true →
      backgroundLayer (some bp) fs
        = BgLayer.image bp (VIDEO_WIDTH, VIDEO_HEIGHT)) ∧
    (fs bp = false →
      backgroundLayer (some bp) fs
        = BgLayer.synth (resizeBy (resizeBy (resizeWH VIDEO_WIDTH VIDEO_HEIGHT)
            (3 / 10)) (10 / 3))) ∧
    backgroundLayer none fs
      = BgLayer.synth (resizeBy (resizeBy (resizeWH VIDEO_WIDTH VIDEO_HEIGHT)
          (3 / 10)) (10 / 3)) ∧
    resizeBy (resizeBy (resizeWH VIDEO_WIDTH VIDEO_HEIGHT) (3 / 10)) (10 / 3)
      = (1080, 1920) ∧
    resizeWH VIDEO_WIDTH VIDEO_HEIGHT = (1080, 1920) := by
  refine ⟨?_, ?_, ?_, ?_, rfl⟩
  · intro hbp hfs
    have : bp.isEmpty = false := by
      rw [Bool.eq_false_iff]
      intro hpe
      exact hbp ((String.isEmpty_iff bp).mp hpe)
    simp [backgroundLayer, strTruthy, resizeWH, this, hfs]
  · intro hfs
    simp [backgroundLayer, hfs]
  · simp [backgroundLayer, strTruthy]
  · norm_num [resizeBy, resizeWH, VIDEO_WIDTH, VIDEO_HEIGHT]

/-- C7 witness: a present `background.png` becomes the image layer at
exactly 1080×1920; an absent one becomes the synthesized layer, whose
0.3-down/0.3⁻¹-up chain also lands on exactly 1080×1920. -/
theorem c7_background_scaling_witness :
    backgroundLayer (some "background.png") (fun _ => true)
      = BgLayer.image "background.png" (VIDEO_WIDTH, VIDEO_HEIGHT) ∧
    backgroundLayer (some "background.png") (fun _ => false)
      = BgLayer.synth (resizeBy (resizeBy (resizeWH VIDEO_WIDTH VIDEO_HEIGHT)
          (3 / 10)) (10 / 3)) ∧
    resizeBy (resizeBy (resizeWH VIDEO_WIDTH VIDEO_HEIGHT) (3 / 10)) (10 / 3)
      = (1080, 1920) :=
  ⟨(c7_background_scaling "background.png" (fun _ => true)).1 (by decide) rfl,
   (c7_background_scaling "background.png" (fun _ => false)).2.1 rfl,
   (c7_background_scaling "background.png" (fun _ => true)).2.2.2.1⟩

lemma pyInt_nonneg {q : ℚ} (h : 0 ≤ q) : pyInt q = ⌊q⌋ := if_pos h

lemma pyInt_intCast (m : ℤ) : pyInt (m : ℚ) = m := by
  by_cases h : (0 : ℚ) ≤ (m : ℚ)
  · rw [pyInt, if_pos h, Int.floor_intCast]
  · rw [pyInt, if_neg h, Int.ceil_intCast]

lemma endValue_le_duration (duration : ℚ) (endOpt : Option ℤ) :
    endValue duration endOpt ≤ duration := by
  rcases endOpt with _ | e
  · exact le_refl _
  · by_cases he : e ≠ 0
    · rw [endValue, if_pos he]
      exact min_le_left _ _
    · rw [endValue, if_neg he]

lemma segments_index_lt {s : ℤ} {e : ℚ} {pd : ℤ} (hpd : 0 < pd) {j : ℕ}
    (h : j < (segments s e pd).length) : s + pd * (j : ℤ) < pyInt e := by
  rw [segments_length] at h
  exact (pyRange_lt_length hpd).mp h

lemma exportCalls_run (duration : ℚ) (start : ℤ) (endOpt : Option ℤ)
    (pd : ℤ) (vt ob pid : String)
    (hv : ((max 0 start : ℤ) : ℚ) < endValue duration endOpt) :
    exportCalls (generate_reels_parts duration start endOpt pd vt ob pid
        (fun _ => false)).events
      = (enumFrom 1 (segments (max 0 start) (endValue duration endOpt) pd)).map
          (fun p => writeVideofileCall (ob ++ "/" ++ vt ++ "_" ++ pid)
            ("temp/video_split_" ++ pid) p.1) := by
  rw [generate_reels_parts_valid duration start endOpt pd vt ob pid
    (fun _ => false) hv, exportSegments_no_fault]
  simp only [exportCalls, List.filterMap_cons, List.filterMap_append,
    List.filterMap_map]
  rw [show ((fun e => match e with
        | Event.exportPart c => some c
        | _ => none) ∘
      fun (p : ℕ × (ℚ × ℚ)) => Event.exportPart
        (writeVideofileCall (ob ++ "/" ++ vt ++ "_" ++ pid)
          ("temp/video_split_" ++ pid) p.1))
      = some ∘ (fun (p : ℕ × (ℚ × ℚ)) =>
          writeVideofileCall (ob ++ "/" ++ vt ++ "_" ++ pid)
            ("temp/video_split_" ++ pid) p.1) from rfl,
    List.filterMap_eq_map]
  simp

lemma enumFrom_getElem? (n : ℕ) (l : List α) (j : ℕ) :
    (enumFrom n l)[j]? = (l[j]?).map (fun x => (n + j, x)) := by
  induction l generalizing n j with
  | nil => simp [enumFrom]
  | cons hd tl ih =>
    cases j with
    | zero => simp [enumFrom]
    | succ k =>
      simp only [enumFrom, List.getElem?_cons_succ, ih (n + 1) k]
      congr 1
      funext x
      congr 1
      omega

/-- C8: in a valid run, every produced segment `(s, e)` satisfies
`0 ≤ s < e ≤ duration` and `e - s ≤ part_duration`, every non-final
segment has length exactly `part_duration` (so only the last may be
strictly shorter), there are as many export calls as segments, and the
`j`-th export call (0-based `j`) writes
`{output_folder}/part_{j+1}.mp4` — ordinals increment from 1 in export
order. -/
theorem c8_segment_invariants (duration : ℚ) (start : ℤ) (endOpt : Option ℤ)
    (pd : ℤ) (vt ob pid : String) (hpd : 0 < pd)
    (hv : ((max 0 start : ℤ) : ℚ) < endValue duration endOpt) :
    (∀ j (h : j < (segments (max 0 start) (endValue duration endOpt) pd).length),
      0 ≤ ((segments (max 0 start) (endValue duration endOpt) pd).get ⟨j, h⟩).1 ∧
      ((segments (max 0 start) (endValue duration endOpt) pd).get ⟨j, h⟩).1
        < ((segments (max 0 start) (endValue duration endOpt) pd).get ⟨j, h⟩).2 ∧
      ((segments (max 0 start) (endValue duration endOpt) pd).get ⟨j, h⟩).2
        ≤ duration ∧
      ((segments (max 0 start) (endValue duration endOpt) pd).get ⟨j, h⟩).2
        - ((segments (max 0 start) (endValue duration endOpt) pd).get ⟨j, h⟩).1
        ≤ (pd : ℚ) ∧
      (j + 1 < (segments (max 0 start) (endValue duration endOpt) pd).length →
        ((segments (max 0 start) (endValue duration endOpt) pd).get ⟨j, h⟩).2
          - ((segments (max 0 start) (endValue duration endOpt) pd).get ⟨j, h⟩).1
          = (pd : ℚ))) ∧
    (exportCalls (generate_reels_parts duration start endOpt pd vt ob pid
        (fun _ => false)).events).length
      = (segments (max 0 start) (endValue duration endOpt) pd).length ∧
    ∀ j, j < (segments (max 0 start) (endValue duration endOpt) pd).length →
      ((exportCalls (generate_reels_parts duration start endOpt pd vt ob pid
          (fun _ => false)).events)[j]?).map (fun c => c.output_path)
        = some ((ob ++ "/" ++ vt ++ "_" ++ pid) ++ "/part_"
            ++ toString (j + 1) ++ ".mp4") := by
  have h0 : (0 : ℤ) ≤ max 0 start := le_max_left 0 start
  have h0q : (0 : ℚ) ≤ ((max 0 start : ℤ) : ℚ) := by exact_mod_cast h0
  have he0 : (0 : ℚ) ≤ endValue duration endOpt := le_trans h0q hv.le
  have hfl : pyInt (endValue duration endOpt) = ⌊endValue duration endOpt⌋ :=
    pyInt_nonneg he0
  have hfle : ((⌊endValue duration endOpt⌋ : ℤ) : ℚ) ≤ endValue duration endOpt :=
    Int.floor_le _
  refine ⟨?_, ?_, ?_⟩
  · intro j h
    have hlt : max 0 start + pd * (j : ℤ) < ⌊endValue duration endOpt⌋ :=
      hfl ▸ segments_index_lt hpd h
    have htnn : (0 : ℤ) ≤ max 0 start + pd * (j : ℤ) :=
      add_nonneg h0 (mul_nonneg hpd.le (Int.natCast_nonneg j))
    have htlt : ((max 0 start + pd * (j : ℤ) : ℤ) : ℚ)
        < endValue duration endOpt := by
      refine lt_of_lt_of_le ?_ hfle
      exact_mod_cast hlt
    rw [segments_get]
    dsimp only
    refine ⟨by exact_mod_cast htnn, ?_, ?_, ?_, ?_⟩
    · exact lt_min (by push_cast; linarith [(by exact_mod_cast hpd : (0:ℚ) < (pd:ℚ))]) htlt
    · exact le_trans (min_le_right _ _) (endValue_le_duration duration endOpt)
    · have := min_le_left (((max 0 start + pd * (j : ℤ) : ℤ) : ℚ) + (pd : ℚ))
        (endValue duration endOpt)
      linarith
    · intro hj1
      have hlt2 : max 0 start + pd * ((j : ℤ) + 1) < ⌊endValue duration endOpt⌋ := by
        have := hfl ▸ segments_index_lt hpd hj1
        push_cast at this ⊢
        linarith
      have hle : ((max 0 start + pd * (j : ℤ) : ℤ) : ℚ) + (pd : ℚ)
          ≤ endValue duration endOpt := by
        refine le_trans ?_ hfle
        have : ((max 0 start + pd * ((j : ℤ) + 1) : ℤ) : ℚ)
            ≤ ((⌊endValue duration endOpt⌋ : ℤ) : ℚ) := by
          exact_mod_cast hlt2.le
        push_cast at this ⊢
        linarith
      rw [min_eq_left hle]
      ring
  · rw [exportCalls_run duration start endOpt pd vt ob pid hv,
      List.length_map, enumFrom_length]
  · intro j hj
    rw [exportCalls_run duration start endOpt pd vt ob pid hv,
      List.getElem?_map, enumFrom_getElem?,
      List.getElem?_eq_getElem hj]
    simp [writeVideofileCall, Nat.add_comm 1 j]

/-- C8 witness: the 95-second, 30-second-part run satisfies the segment
invariants, has as many export calls as segments, and writes
`part_{j+1}.mp4` for the `j`-th export. -/
theorem c8_segment_invariants_witness :
    (∀ j (h : j < (segments (max 0 0) (endValue 95 none) 30).length),
      0 ≤ ((segments (max 0 0) (endValue 95 none) 30).get ⟨j, h⟩).1 ∧
      ((segments (max 0 0) (endValue 95 none) 30).get ⟨j, h⟩).1
        < ((segments (max 0 0) (endValue 95 none) 30).get ⟨j, h⟩).2 ∧
      ((segments (max 0 0) (endValue 95 none) 30).get ⟨j, h⟩).2 ≤ 95 ∧
      ((segments (max 0 0) (endValue 95 none) 30).get ⟨j, h⟩).2
        - ((segments (max 0 0) (endValue 95 none) 30).get ⟨j, h⟩).1
        ≤ ((30 : ℤ) : ℚ) ∧
      (j + 1 < (segments (max 0 0) (endValue 95 none) 30).length →
        ((segments (max 0 0) (endValue 95 none) 30).get ⟨j, h⟩).2
          - ((segments (max 0 0) (endValue 95 none) 30).get ⟨j, h⟩).1
          = ((30 : ℤ) : ℚ))) ∧
    (exportCalls (generate_reels_parts 95 0 none 30 "Video Title" "output"
        "abcd1234" (fun _ => false)).events).length
      = (segments (max 0 0) (endValue 95 none) 30).length ∧
    ∀ j, j < (segments (max 0 0) (endValue 95 none) 30).length →
      ((exportCalls (generate_reels_parts 95 0 none 30 "Video Title" "output"
          "abcd1234" (fun _ => false)).events)[j]?).map (fun c => c.output_path)
        = some (("output" ++ "/" ++ "Video Title" ++ "_" ++ "abcd1234")
            ++ "/part_" ++ toString (j + 1) ++ ".mp4") :=
  c8_segment_invariants 95 0 none 30 "Video Title" "output" "abcd1234"
    (by decide) (by norm_num [endValue])

/-- C1 counterexample: on a 90.5-second media with `start=0`, `end=None`,
`part_duration=30`, the loop `range(start, int(end), part_duration)`
truncates `end` to 90 and the pipeline exports 3 parts, while the claim's
`ceil((end - start) / part_duration) = ceil(90.5 / 30)` is 4. -/
theorem c1_counterexample :
    (exportCalls (generate_reels_parts ((181 : ℚ) / 2) 0 none 30 "Video Title"
        "output" "abcd1234" (fun _ => false)).events).length = 3 ∧
    ⌈(endValue ((181 : ℚ) / 2) none - ((max 0 0 : ℤ) : ℚ)) / ((30 : ℤ) : ℚ)⌉
      = 4 := by
  constructor
  · rw [exportCalls_run ((181 : ℚ) / 2) 0 none 30 "Video Title" "output"
        "abcd1234" (by norm_num [endValue]),
      List.length_map, enumFrom_length, segments_length, pyRange_length]
    have h1 : pyInt (endValue ((181 : ℚ) / 2) none) = 90 := by
      norm_num [pyInt, endValue, Int.floor_eq_iff]
    rw [h1]
    norm_num
    rfl
  · norm_num [endValue, Int.ceil_eq_iff]

/-- C1 (amended): for a valid input whose clamped `end` value is a whole
number of seconds `m` (in particular whenever a user-supplied integer
`end ≤ duration` is in effect, or the media duration is whole), the
pipeline exports exactly `ceil((end - start) / part_duration)` segments,
and the final segment's length is `(end - start) mod part_duration` when
that remainder is nonzero, else `part_duration`.  (When the clamped `end`
is fractional the loop truncates it to `int(end)` first, which the
counterexample shows can change the count.) -/
theorem c1_segment_count (duration : ℚ) (start : ℤ) (endOpt : Option ℤ)
    (pd m : ℤ) (vt ob pid : String) (hpd : 0 < pd)
    (hm : endValue duration endOpt = (m : ℚ))
    (hv : ((max 0 start : ℤ) : ℚ) < endValue duration endOpt) :
    (exportCalls (generate_reels_parts duration start endOpt pd vt ob pid
        (fun _ => false)).events).length
      = (segments (max 0 start) (endValue duration endOpt) pd).length ∧
    (((segments (max 0 start) (endValue duration endOpt) pd).length : ℤ))
      = ⌈(endValue duration endOpt - ((max 0 start : ℤ) : ℚ)) / ((pd : ℤ) : ℚ)⌉ ∧
    ∀ j (h : j < (segments (max 0 start) (endValue duration endOpt) pd).length),
      j + 1 = (segments (max 0 start) (endValue duration endOpt) pd).length →
      ((segments (max 0 start) (endValue duration endOpt) pd).get ⟨j, h⟩).2
        - ((segments (max 0 start) (endValue duration endOpt) pd).get ⟨j, h⟩).1
        = (if (m - max 0 start) % pd = 0 then ((pd : ℤ) : ℚ)
           else (((m - max 0 start) % pd : ℤ) : ℚ)) := by
  have hs0m : max 0 start < m := by
    have := hm ▸ hv
    exact_mod_cast this
  have hpy : pyInt (endValue duration endOpt) = m := by
    rw [hm, pyInt_intCast]
  have hlen : (segments (max 0 start) (endValue duration endOpt) pd).length
      = (⌈((m - max 0 start : ℤ) : ℚ) / ((pd : ℤ) : ℚ)⌉).toNat := by
    rw [segments_length, pyRange_length, hpy]
    congr 2
    push_cast
    ring
  have hDpos : (0 : ℚ) < ((m - max 0 start : ℤ) : ℚ) := by
    exact_mod_cast (by omega : (0 : ℤ) < m - max 0 start)
  have hpdq : (0 : ℚ) < ((pd : ℤ) : ℚ) := by exact_mod_cast hpd
  have hceilpos : 0 < ⌈((m - max 0 start : ℤ) : ℚ) / ((pd : ℤ) : ℚ)⌉ :=
    Int.ceil_pos.mpr (div_pos hDpos hpdq)
  refine ⟨?_, ?_, ?_⟩
  · rw [exportCalls_run duration start endOpt pd vt ob pid hv,
      List.length_map, enumFrom_length]
  · rw [hlen, Int.toNat_of_nonneg hceilpos.le, hm]
    congr 2
    push_cast
    ring
  · intro j h hj1
    have hcd := ceil_int_div (m - max 0 start) pd hpd
    have hlenz : ((segments (max 0 start) (endValue duration endOpt) pd).length
        : ℤ) = ⌈((m - max 0 start : ℤ) : ℚ) / ((pd : ℤ) : ℚ)⌉ := by
      rw [hlen, Int.toNat_of_nonneg hceilpos.le]
    have hjz : ((j : ℤ)) + 1 = ⌈((m - max 0 start : ℤ) : ℚ) / ((pd : ℤ) : ℚ)⌉ := by
      rw [← hlenz]
      exact_mod_cast congrArg (fun n : ℕ => (n : ℤ)) hj1
    rw [segments_get]
    dsimp only
    rw [hm]
    by_cases hdvd : pd ∣ (m - max 0 start)
    · have hr : (m - max 0 start) % pd = 0 := Int.emod_eq_zero_of_dvd hdvd
      rw [if_pos hr]
      have hq : ⌈((m - max 0 start : ℤ) : ℚ) / ((pd : ℤ) : ℚ)⌉
          = (m - max 0 start) / pd := by rw [hcd, if_pos hdvd]
      have hmul : pd * ((m - max 0 start) / pd) = m - max 0 start :=
        Int.mul_ediv_cancel' hdvd
      have htz : max 0 start + pd * (j : ℤ) + pd = m := by
        have hj' : (j : ℤ) = (m - max 0 start) / pd - 1 := by omega
        have : pd * ((m - max 0 start) / pd - 1)
            = (m - max 0 start) - pd := by
          rw [mul_sub, hmul]
          ring
        rw [hj']
        omega
      have htq : ((max 0 start + pd * (j : ℤ) : ℤ) : ℚ) + ((pd : ℤ) : ℚ)
          = (m : ℚ) := by exact_mod_cast congrArg (fun z : ℤ => (z : ℚ)) htz
      rw [htq, min_self]
      linarith [htq]
    · have hr : (m - max 0 start) % pd ≠ 0 := fun hc =>
        hdvd (Int.dvd_of_emod_eq_zero hc)
      rw [if_neg hr]
      have hq : ⌈((m - max 0 start : ℤ) : ℚ) / ((pd : ℤ) : ℚ)⌉
          = (m - max 0 start) / pd + 1 := by rw [hcd, if_neg hdvd]
      have hqr := Int.ediv_add_emod (m - max 0 start) pd
      have hr0 : 0 < (m - max 0 start) % pd :=
        lt_of_le_of_ne (Int.emod_nonneg _ (by omega)) (Ne.symm hr)
      have hrlt : (m - max 0 start) % pd < pd := Int.emod_lt_of_pos _ hpd
      have htz : max 0 start + pd * (j : ℤ) = m - (m - max 0 start) % pd := by
        have hj' : (j : ℤ) = (m - max 0 start) / pd := by omega
        rw [hj']
        omega
      have hmin : (m : ℚ) ≤ ((max 0 start + pd * (j : ℤ) : ℤ) : ℚ)
          + ((pd : ℤ) : ℚ) := by
        exact_mod_cast (by omega : m ≤ max 0 start + pd * (j : ℤ) + pd)
      rw [min_eq_right hmin]
      exact_mod_cast congrArg (fun z : ℤ => (z : ℚ))
        (by omega : m - (max 0 start + pd * (j : ℤ))
          = (m - max 0 start) % pd)

/-- C1 witness: the spec's own scenario — 95-second input,
`part_duration=30`, `start=0`, `end=None` — has an integral clamped end
(95), export count `ceil(95/30) = 4`, and final length `95 mod 30 = 5`. -/
theorem c1_segment_count_witness :
    (exportCalls (generate_reels_parts 95 0 none 30 "Video Title" "output"
        "abcd1234" (fun _ => false)).events).length
      = (segments (max 0 0) (endValue 95 none) 30).length ∧
    (((segments (max 0 0) (endValue 95 none) 30).length : ℤ))
      = ⌈(endValue 95 none - ((max 0 0 : ℤ) : ℚ)) / ((30 : ℤ) : ℚ)⌉ ∧
    ∀ j (h : j < (segments (max 0 0) (endValue 95 none) 30).length),
      j + 1 = (segments (max 0 0) (endValue 95 none) 30).length →
      ((segments (max 0 0) (endValue 95 none) 30).get ⟨j, h⟩).2
        - ((segments (max 0 0) (endValue 95 none) 30).get ⟨j, h⟩).1
        = (if ((95 : ℤ) - max 0 0) % 30 = 0 then ((30 : ℤ) : ℚ)
           else ((((95 : ℤ) - max 0 0) % 30 : ℤ) : ℚ)) :=
  c1_segment_count 95 0 none 30 95 "Video Title" "output" "abcd1234"
    (by decide) (by norm_num [endValue]) (by norm_num [endValue])
